import Mathlib

/-!
# Verification of the dymoprint render/protocol core

Shallow embedding, in Lean 4, of the parts of the `dymoprint` code base that
the specification's testable properties talk about:

* the margins render engine (`src/dymoprint/lib/render_engines/margins.py`),
* the horizontal compositor (`src/dymoprint/lib/render_engines/horizontally_combined.py`),
* the QR render engine (`src/dymoprint/lib/render_engines/qr.py`),
* the protocol encoder and transport chunker (`src/dymoprint/lib/dymo_labeler.py`
  and the legacy `src/dymoprint/labeler.py`),
* the raster consistency check of the print entry point.

Python floats that hold pixel measurements are modelled as rationals (the
values involved are exact in both worlds), Python ints as `Int`/`Nat`, byte
buffers as `List Int`, and PIL 1-bit images as a `Bitmap` structure carrying a
pixel predicate.  Methods that mutate `self` are modelled as explicit state
passing; a method that can raise returns the state at the moment of the raise
together with the exception, so that atomicity of failing calls is a real
statement about the model.
-/

namespace Dymoprint

/-- `ESC = 0x1B` (src/dymoprint/lib/constants.py). -/
def ESC : Int := 0x1B

/-- `SYN = 0x16` (src/dymoprint/lib/constants.py). -/
def SYN : Int := 0x16

/-- A PIL mode-"1" image: width, height, and the pixel value at each
coordinate (`true` = burned).  Coordinates outside the image are `false`. -/
structure Bitmap where
  width : Nat
  height : Nat
  px : Nat → Nat → Bool

/-- `Image.new("1", (w, h))`: an all-blank bitmap. -/
def Bitmap.blank (w h : Nat) : Bitmap :=
  ⟨w, h, fun _ _ => false⟩

/-- `dst.paste(src, box=(bx, by))` for a possibly negative box: inside the
box the source pixel shows, elsewhere the destination pixel. -/
def Bitmap.pasteAt (dst src : Bitmap) (bx by' : Int) : Bitmap :=
  { dst with
    px := fun x y =>
      if bx ≤ (x : Int) ∧ (x : Int) < bx + src.width ∧
          by' ≤ (y : Int) ∧ (y : Int) < by' + src.height then
        src.px ((x : Int) - bx).toNat ((y : Int) - by').toNat
      else dst.px x y }

/-- Python's `round` (banker's rounding, ties to even) on a rational. -/
def pyRound (q : ℚ) : Int :=
  let f := ⌊q⌋
  let r := q - f
  if r < 1/2 then f
  else if 1/2 < r then f + 1
  else if 2 ∣ f then f else f + 1

/-- Python's `math.ceil` on a rational, landing in `Nat` via `Int.toNat`
(every size this code feeds it is nonnegative). -/
def pyCeil (q : ℚ) : Nat := ⌈q⌉.toNat

/-- Exceptions the embedded Python code can raise. -/
inductive PyErr where
  | valueError
  | assertionError
  | bitmapTooBig
  | qrTooBig
  | noContent
  | runtimeError
  deriving DecidableEq, Repr

/-- Justification values accepted by the margins engine. -/
inductive Justify where
  | left
  | center
  | right
  deriving DecidableEq, Repr

/-- The `mode` argument of `MarginsRenderEngine`. -/
inductive MarginsMode where
  | print
  | preview
  deriving DecidableEq, Repr

/-- Parameters of `MarginsRenderEngine.__init__`
(src/dymoprint/lib/render_engines/margins.py). -/
structure MarginsParams where
  mode : MarginsMode
  justify : Justify
  visibleHorizontalMarginPx : ℚ
  labelerHorizontalMarginPx : ℚ
  labelerVerticalMarginPx : ℚ
  maxWidthPx : Option ℚ
  minWidthPx : ℚ

/-- The `assert` statements of `MarginsRenderEngine.__init__`. -/
def MarginsParams.ctorAsserts (e : MarginsParams) : Prop :=
  0 ≤ e.visibleHorizontalMarginPx ∧
  0 ≤ e.labelerHorizontalMarginPx ∧
  0 ≤ e.labelerVerticalMarginPx ∧
  (∀ m ∈ e.maxWidthPx, 0 ≤ m) ∧
  0 ≤ e.minWidthPx

instance (e : MarginsParams) : Decidable e.ctorAsserts := by
  unfold MarginsParams.ctorAsserts
  infer_instance

/-- `MarginsRenderEngine.calculate_visible_width`: the minimal label width is
the payload width plus the visible margin on both sides; raise
`BitmapTooBigError` past `max_width_px`, and pad up to `min_width_px`. -/
def calculateVisibleWidth (e : MarginsParams) (payloadWidthPx : ℚ) :
    Except PyErr ℚ :=
  let minimalLabelWidthPx := payloadWidthPx + e.visibleHorizontalMarginPx * 2
  match e.maxWidthPx with
  | some maxW =>
    if minimalLabelWidthPx > maxW then .error .bitmapTooBig
    else if e.minWidthPx > minimalLabelWidthPx then .ok e.minWidthPx
    else .ok minimalLabelWidthPx
  | none =>
    if e.minWidthPx > minimalLabelWidthPx then .ok e.minWidthPx
    else .ok minimalLabelWidthPx

/-- The justify branch of `MarginsRenderEngine.render` (lines 67–72):
the horizontal offset before any mode-specific adjustment. -/
def justifyOffset (e : MarginsParams) (paddingPx : ℚ) : ℚ :=
  match e.justify with
  | .left => e.visibleHorizontalMarginPx
  | .center => paddingPx / 2
  | .right => paddingPx - e.visibleHorizontalMarginPx

/-- `MarginsRenderEngine.render`, given the already rendered payload bitmap.
Returns the final bitmap plus the `horizontal_offset_px` / `vertical_offset_px`
metadata.  The constructor asserts and the `assert horizontal_offset_px >=
visible_horizontal_margin_px` are modelled as `AssertionError` guards. -/
def marginsRender (e : MarginsParams) (payload : Bitmap) :
    Except PyErr (Bitmap × ℚ × ℚ) :=
  if ¬ e.ctorAsserts then .error .assertionError
  else
    let payloadWidthPx : ℚ := payload.width
    match calculateVisibleWidth e payloadWidthPx with
    | .error err => .error err
    | .ok labelWidthPx =>
      let paddingPx := labelWidthPx - payloadWidthPx
      let horizontalOffsetPx := justifyOffset e paddingPx
      if ¬ (horizontalOffsetPx ≥ e.visibleHorizontalMarginPx) then
        .error .assertionError
      else
        let result : ℚ × ℚ × ℚ :=
          match e.mode with
          | .print =>
            (horizontalOffsetPx - e.labelerHorizontalMarginPx,
              0, (payload.height : ℚ))
          | .preview =>
            (horizontalOffsetPx,
              e.labelerVerticalMarginPx,
              (payload.height : ℚ) + e.labelerVerticalMarginPx * 2)
        let bitmap :=
          (Bitmap.blank (pyCeil labelWidthPx) (pyCeil result.2.2)).pasteAt
            payload (pyRound result.1) (pyRound result.2.1)
        .ok (bitmap, result.1, result.2.1)

/-- C2: for every payload width, every `visible_horizontal_margin_px ≥ 0`,
every `min_width_px ≥ 0` and every justify, when `max_width_px` is unset or
not exceeded, `calculate_visible_width` returns
`max (payload_width + 2 * visible_margin, min_width)` and the justify offset
is at least the visible margin. -/
theorem margins_label_width_and_offset (e : MarginsParams) (payloadWidthPx : ℚ)
    (hpw : 0 ≤ payloadWidthPx)
    (hv : 0 ≤ e.visibleHorizontalMarginPx)
    (hmin : 0 ≤ e.minWidthPx)
    (hmax : ∀ m ∈ e.maxWidthPx,
      payloadWidthPx + e.visibleHorizontalMarginPx * 2 ≤ m) :
    calculateVisibleWidth e payloadWidthPx =
      .ok (max (payloadWidthPx + 2 * e.visibleHorizontalMarginPx)
        e.minWidthPx) ∧
    justifyOffset e
        (max (payloadWidthPx + 2 * e.visibleHorizontalMarginPx) e.minWidthPx
          - payloadWidthPx)
      ≥ e.visibleHorizontalMarginPx := by
  set v := e.visibleHorizontalMarginPx with hvdef
  have hL : max (payloadWidthPx + 2 * v) e.minWidthPx - payloadWidthPx
      ≥ 2 * v := by
    have := le_max_left (payloadWidthPx + 2 * v) e.minWidthPx
    linarith
  constructor
  · unfold calculateVisibleWidth
    cases hw : e.maxWidthPx with
    | none =>
      simp only
      split
      · rename_i hgt
        congr 1
        rw [max_eq_right]
        linarith
      · rename_i hle
        congr 1
        rw [max_eq_left]
        · ring_nf
        · push_neg at hle
          linarith
    | some m =>
      have hbound := hmax m (by simp [hw])
      simp only
      split
      · rename_i hgt
        exfalso
        linarith
      · split
        · rename_i hgt
          congr 1
          rw [max_eq_right]
          linarith
        · rename_i hle
          congr 1
          rw [max_eq_left]
          · ring_nf
          · push_neg at hle
            linarith
  · unfold justifyOffset
    cases e.justify <;> simp only <;> linarith

/-- Witness for `margins_label_width_and_offset` at a concrete instance. -/
theorem margins_label_width_and_offset_witness :
    calculateVisibleWidth
        ⟨.print, .right, 5, 0, 0, some 1000, 7⟩ (30 : ℚ) =
      .ok (max (30 + 2 * 5) 7) ∧
    justifyOffset ⟨.print, .right, 5, 0, 0, some 1000, 7⟩
        (max (30 + 2 * 5) 7 - 30) ≥ 5 := by
  have := margins_label_width_and_offset
    ⟨.print, .right, 5, 0, 0, some 1000, 7⟩ 30
    (by norm_num) (by norm_num) (by norm_num)
    (by intro m hm; simp at hm; subst hm; norm_num)
  exact this

/-- C6: margins engine in print mode, visible margin 10, labeler margins
(6, 2), payload width 100, justify center, min width 0, max width unset:
the label is 120 px wide, the returned horizontal offset is `10 - 6 = 4`,
and the output bitmap height equals the payload height. -/
theorem margins_print_center_scenario (h : Nat) (f : Nat → Nat → Bool) :
    ∃ b : Bitmap,
      marginsRender ⟨.print, .center, 10, 6, 2, none, 0⟩ ⟨100, h, f⟩ =
        .ok (b, 4, 0) ∧
      b.width = 120 ∧ b.height = h := by
  refine ⟨(Bitmap.blank 120 h).pasteAt ⟨100, h, f⟩ (pyRound 4) (pyRound 0),
    ?_, ?_, ?_⟩
  · unfold marginsRender calculateVisibleWidth justifyOffset
    norm_num [MarginsParams.ctorAsserts, pyCeil, Int.ceil_natCast]
    simp
  · simp [Bitmap.pasteAt, Bitmap.blank]
  · simp [Bitmap.pasteAt, Bitmap.blank]

/-! ## Horizontal compositor
(src/dymoprint/lib/render_engines/horizontally_combined.py) -/

/-- `HorizontallyCombinedRenderEngine.PADDING`. -/
def PADDING : Nat := 4

/-- The paste loop of `HorizontallyCombinedRenderEngine.render`: paste each
bitmap at the running `x_offset`, vertically centered against the label
height, then advance by the bitmap's width plus `PADDING`. -/
def pasteRow (acc : Bitmap) (labelHeight xOffset : Nat) :
    List Bitmap → Bitmap
  | [] => acc
  | b :: rest =>
    pasteRow (acc.pasteAt b (xOffset : Int) (((labelHeight - b.height) / 2 : Nat) : Int))
      labelHeight (xOffset + b.width + PADDING) rest

instance : Inhabited Bitmap := ⟨Bitmap.blank 0 0⟩

/-- The merge step of `HorizontallyCombinedRenderEngine.render`: a single
bitmap (`len(bitmaps) == 1`) passes through unchanged; otherwise allocate
`sum of widths + PADDING * (count - 1)` by `max height` and paste each
component left to right. -/
def mergeBitmaps (bitmaps : List Bitmap) : Bitmap :=
  if bitmaps.length = 1 then bitmaps.headI
  else
    let labelHeight := (bitmaps.map Bitmap.height).foldr max 0
    let base :=
      Bitmap.blank
        ((bitmaps.map Bitmap.width).sum + PADDING * (bitmaps.length - 1))
        labelHeight
    pasteRow base labelHeight 0 bitmaps

/-- `HorizontallyCombinedRenderEngine.render`, taking the list of bitmaps
already rendered from the engines (with the empty-engine fallback applied by
the caller).  Enforces `max_payload_len_px` and expands to
`min_payload_len_px` with the justify offset. -/
def hcRender (minPayloadLenPx : Nat) (maxPayloadLenPx : Option Nat)
    (justify : Justify) (bitmaps : List Bitmap) : Except PyErr Bitmap :=
  let merged := mergeBitmaps bitmaps
  let tooBig :=
    match maxPayloadLenPx with
    | some maxLen => decide (merged.width > maxLen)
    | none => false
  if tooBig then .error .bitmapTooBig
  else if minPayloadLenPx > merged.width then
    let offset : Nat :=
      match justify with
      | .center => (minPayloadLenPx - merged.width) / 2
      | .right => minPayloadLenPx - merged.width
      | .left => 0
    .ok ((Bitmap.blank minPayloadLenPx merged.height).pasteAt merged
      (offset : Int) 0)
  else .ok merged

/-- The x-offset at which the `i`-th component lands inside the merged
bitmap. -/
def componentOffset (bitmaps : List Bitmap) (i : Nat) : Nat :=
  ((bitmaps.take i).map Bitmap.width).sum + PADDING * i

lemma pasteAt_width (dst src : Bitmap) (bx by' : Int) :
    (dst.pasteAt src bx by').width = dst.width := rfl

lemma pasteAt_height (dst src : Bitmap) (bx by' : Int) :
    (dst.pasteAt src bx by').height = dst.height := rfl

lemma pasteRow_width (bs : List Bitmap) :
    ∀ (acc : Bitmap) (labelHeight xOffset : Nat),
      (pasteRow acc labelHeight xOffset bs).width = acc.width := by
  induction bs with
  | nil => intro acc lh xo; rfl
  | cons b rest ih =>
    intro acc lh xo
    simp [pasteRow, ih, pasteAt_width]

lemma pasteRow_height (bs : List Bitmap) :
    ∀ (acc : Bitmap) (labelHeight xOffset : Nat),
      (pasteRow acc labelHeight xOffset bs).height = acc.height := by
  induction bs with
  | nil => intro acc lh xo; rfl
  | cons b rest ih =>
    intro acc lh xo
    simp [pasteRow, ih, pasteAt_height]

lemma pasteRow_px_left (bs : List Bitmap) :
    ∀ (acc : Bitmap) (labelHeight xOffset : Nat) (x y : Nat), x < xOffset →
      (pasteRow acc labelHeight xOffset bs).px x y = acc.px x y := by
  induction bs with
  | nil => intro acc lh xo x y _; rfl
  | cons b rest ih =>
    intro acc lh xo x y hx
    rw [pasteRow, ih _ _ _ x y (by omega)]
    simp only [Bitmap.pasteAt]
    rw [if_neg]
    intro hbox
    have := hbox.1
    omega

lemma pasteRow_px_component (bs : List Bitmap) :
    ∀ (acc : Bitmap) (labelHeight xOffset : Nat),
      (∀ b ∈ bs, b.height = labelHeight) →
      ∀ i (hi : i < bs.length) x y,
        x < (bs.get ⟨i, hi⟩).width → y < labelHeight →
        (pasteRow acc labelHeight xOffset bs).px
            (xOffset + componentOffset bs i + x) y
          = (bs.get ⟨i, hi⟩).px x y := by
  induction bs with
  | nil => intro acc lh xo _ i hi; exact absurd hi (by simp)
  | cons b rest ih =>
    intro acc lh xo hh i hi x y hx hy
    match i with
    | 0 =>
      have hb : b.height = lh := hh b (by simp)
      have hco : componentOffset (b :: rest) 0 = 0 := by
        simp [componentOffset]
      simp only [List.get] at hx ⊢
      rw [hco, pasteRow,
        pasteRow_px_left rest _ _ _ _ _ (by omega)]
      simp only [Bitmap.pasteAt, hb, Nat.sub_self, Nat.zero_div]
      rw [if_pos]
      · congr 1 <;> omega
      · refine ⟨by omega, by push_cast; omega, by omega, by push_cast; omega⟩
    | i + 1 =>
      have hrest : ∀ c ∈ rest, c.height = lh := by
        intro c hc; exact hh c (by simp [hc])
      have hi' : i < rest.length := by
        simpa using Nat.lt_of_succ_lt_succ hi
      have hoff : xo + componentOffset (b :: rest) (i + 1) + x
          = (xo + b.width + PADDING) + componentOffset rest i + x := by
        simp [componentOffset, List.take_succ_cons, PADDING]
        omega
      rw [pasteRow, hoff]
      simpa using ih _ lh (xo + b.width + PADDING) hrest i hi' x y
        (by simpa using hx) hy

lemma foldr_max_heights (h : Nat) (bs : List Bitmap) (hne : bs ≠ [])
    (hh : ∀ b ∈ bs, b.height = h) :
    ((bs.map Bitmap.height).foldr max 0) = h := by
  induction bs with
  | nil => exact absurd rfl hne
  | cons b rest ih =>
    match rest with
    | [] => simp [hh b (by simp)]
    | c :: rest' =>
      have := ih (by simp) (fun d hd => hh d (by simp [hd]))
      simp only [List.map_cons, List.foldr_cons] at this ⊢
      rw [this, hh b (by simp)]
      simp

/-- C7: given at least one bitmap, all of height `h`, with
`min_payload_len_px = 0` and `max_payload_len_px` unset, the compositor
succeeds; the output has height `h` and width
`Σ widths + PADDING * (N - 1)`; with a single bitmap the output is that
bitmap unchanged; and each component appears at its left-to-right offset,
vertically centered (offset 0 since the heights are equal). -/
theorem hc_render_combines (j : Justify) (h : Nat) (bitmaps : List Bitmap)
    (hne : bitmaps ≠ []) (hh : ∀ b ∈ bitmaps, b.height = h) :
    ∃ out : Bitmap,
      hcRender 0 none j bitmaps = .ok out ∧
      out.height = h ∧
      out.width =
        (bitmaps.map Bitmap.width).sum + PADDING * (bitmaps.length - 1) ∧
      (∀ b, bitmaps = [b] → out = b) ∧
      ∀ i (hi : i < bitmaps.length) x y,
        x < (bitmaps.get ⟨i, hi⟩).width → y < h →
        out.px (componentOffset bitmaps i + x) y
          = (bitmaps.get ⟨i, hi⟩).px x y := by
  by_cases hone : bitmaps.length = 1
  · obtain ⟨b, rfl⟩ : ∃ b, bitmaps = [b] := by
      match bitmaps, hone with
      | [b], _ => exact ⟨b, rfl⟩
    refine ⟨b, by simp [hcRender, mergeBitmaps], ?_, ?_, ?_, ?_⟩
    · exact hh b (by simp)
    · simp [PADDING]
    · intro b' hb'
      simp only [List.cons.injEq, and_true] at hb'
      exact hb'
    · intro i hi x y hx hy
      have hi0 : i = 0 := by simpa using hi
      subst hi0
      simp [mergeBitmaps, componentOffset]
  · have hH : ((bitmaps.map Bitmap.height).foldr max 0) = h :=
      foldr_max_heights h bitmaps hne hh
    have hmerge : mergeBitmaps bitmaps =
        pasteRow
          (Bitmap.blank
            ((bitmaps.map Bitmap.width).sum +
              PADDING * (bitmaps.length - 1)) h)
          h 0 bitmaps := by
      rw [mergeBitmaps, if_neg hone, hH]
    refine ⟨mergeBitmaps bitmaps, by simp [hcRender], ?_, ?_, ?_, ?_⟩
    · rw [hmerge, pasteRow_height]
      rfl
    · rw [hmerge, pasteRow_width]
      rfl
    · intro b' hb'
      exact absurd (congrArg List.length hb') (by simpa using hone)
    · intro i hi x y hx hy
      rw [hmerge]
      simpa using pasteRow_px_component bitmaps _ h 0 hh i hi x y hx hy

/-- Witness for `hc_render_combines` at a concrete two-bitmap input. -/
theorem hc_render_combines_witness :
    ∃ out : Bitmap,
      hcRender 0 none .center
          [Bitmap.blank 3 5, Bitmap.blank 2 5] = .ok out ∧
      out.height = 5 ∧
      out.width =
        (([Bitmap.blank 3 5, Bitmap.blank 2 5]).map Bitmap.width).sum +
          PADDING * (([Bitmap.blank 3 5, Bitmap.blank 2 5]).length - 1) ∧
      (∀ b, [Bitmap.blank 3 5, Bitmap.blank 2 5] = [b] → out = b) ∧
      ∀ i (hi : i < ([Bitmap.blank 3 5, Bitmap.blank 2 5]).length) x y,
        x < (([Bitmap.blank 3 5, Bitmap.blank 2 5]).get ⟨i, hi⟩).width →
        y < 5 →
        out.px (componentOffset [Bitmap.blank 3 5, Bitmap.blank 2 5] i + x) y
          = (([Bitmap.blank 3 5, Bitmap.blank 2 5]).get ⟨i, hi⟩).px x y :=
  hc_render_combines .center 5 [Bitmap.blank 3 5, Bitmap.blank 2 5]
    (by simp)
    (by intro b hb; simp at hb; rcases hb with h | h <;> subst h <;> rfl)

/-! ## QR render engine (src/dymoprint/lib/render_engines/qr.py) -/

/-- `QrRenderEngine.__init__`: reject empty content with `NoContentError`,
otherwise keep it. -/
def qrEngineInit (content : String) : Except PyErr String :=
  if content.length = 0 then .error .noContent else .ok content

/-- The pixel predicate produced by the QR drawing loop: the point lies in
the `scale × scale` square of a module whose character is `'1'`.  The
module-matrix text lines come from the external QR generator, consumed as a
black box. -/
def qrPx (qrTextLines : List String) (qrScale qrOffset x y : Nat) : Bool :=
  if qrScale = 0 then false
  else
    qrOffset ≤ y &&
    (y - qrOffset) / qrScale < qrTextLines.length &&
    x / qrScale < (qrTextLines.getD ((y - qrOffset) / qrScale) "").length &&
    ((qrTextLines.getD ((y - qrOffset) / qrScale) "").toList.getD
      (x / qrScale) ' ' == '1')

/-- `QrRenderEngine.render`, given the module-matrix text lines already
split: integer scale `height_px // module_count`, `QrTooBigError` when the
scale is zero, otherwise a bitmap of the full context height. -/
def qrRender (heightPx : Nat) (qrTextLines : List String) :
    Except PyErr Bitmap :=
  let qrScale := heightPx / qrTextLines.length
  let qrOffset := (heightPx - qrTextLines.length * qrScale) / 2
  let labelWidthPx := qrTextLines.headI.length * qrScale
  if qrScale = 0 then .error .qrTooBig
  else .ok ⟨labelWidthPx, heightPx, qrPx qrTextLines qrScale qrOffset⟩

/-- C9: the QR engine rejects `""` with `NoContentError`; for a non-empty
module matrix, rendering raises `QrTooBigError` exactly when
`height_px // module_count` is zero, and otherwise returns a bitmap whose
height is exactly `height_px`. -/
theorem qr_engine_errors (heightPx : Nat) (qrTextLines : List String)
    (hne : qrTextLines ≠ []) :
    qrEngineInit "" = .error .noContent ∧
    (heightPx / qrTextLines.length = 0 →
      qrRender heightPx qrTextLines = .error .qrTooBig) ∧
    (heightPx / qrTextLines.length ≠ 0 →
      ∃ b, qrRender heightPx qrTextLines = .ok b ∧ b.height = heightPx) := by
  refine ⟨rfl, ?_, ?_⟩
  · intro hz
    simp [qrRender, hz]
  · intro hnz
    refine ⟨⟨qrTextLines.headI.length * (heightPx / qrTextLines.length),
      heightPx,
      qrPx qrTextLines (heightPx / qrTextLines.length)
        ((heightPx - qrTextLines.length * (heightPx / qrTextLines.length))
          / 2)⟩, ?_, rfl⟩
    simp [qrRender, hnz]

/-- Witness for `qr_engine_errors` on a concrete 3-line module matrix. -/
theorem qr_engine_errors_witness :
    qrEngineInit "" = .error .noContent ∧
    (8 / (["101", "010", "111"] : List String).length = 0 →
      qrRender 8 ["101", "010", "111"] = .error .qrTooBig) ∧
    (8 / (["101", "010", "111"] : List String).length ≠ 0 →
      ∃ b, qrRender 8 ["101", "010", "111"] = .ok b ∧ b.height = 8) :=
  qr_engine_errors 8 ["101", "010", "111"] (by simp)

/-! ## Tape width to raster byte-width
(`DymoLabelerFunctions._max_bytes_per_line`,
src/dymoprint/lib/dymo_labeler.py; same formula in the legacy
`DymoLabeler.max_bytes_per_line`, src/dymoprint/labeler.py) -/

/-- `DEFAULT_TAPE_SIZE_MM = 12` (src/dymoprint/lib/dymo_labeler.py). -/
def DEFAULT_TAPE_SIZE_MM : Nat := 12

/-- `int(8 * tape_size_mm / 12)`, with `None` or a falsy `0` replaced by the
default tape size 12 mm.  The Python float quotient truncates toward zero,
which on these nonnegative values is exactly floor division. -/
def maxBytesPerLine (tapeSizeMm : Option Nat) : Nat :=
  let t :=
    match tapeSizeMm with
    | none => DEFAULT_TAPE_SIZE_MM
    | some 0 => DEFAULT_TAPE_SIZE_MM
    | some n => n
  8 * t / 12

/-- C8: for every positive tape size, `max_bytes_per_line` is
`floor(8 * tape_mm / 12)`; in particular 12 mm ↦ 8, 6 mm ↦ 4 and
19 mm ↦ 12. -/
theorem max_bytes_per_line_floor (t : Nat) (ht : 0 < t) :
    maxBytesPerLine (some t) = 8 * t / 12 ∧
    maxBytesPerLine (some 12) = 8 ∧
    maxBytesPerLine (some 6) = 4 ∧
    maxBytesPerLine (some 19) = 12 := by
  refine ⟨?_, by decide, by decide, by decide⟩
  match t, ht with
  | n + 1, _ => rfl

/-- Witness for `max_bytes_per_line_floor` at tape size 9 mm. -/
theorem max_bytes_per_line_floor_witness :
    maxBytesPerLine (some 9) = 8 * 9 / 12 ∧
    maxBytesPerLine (some 12) = 8 ∧
    maxBytesPerLine (some 6) = 4 ∧
    maxBytesPerLine (some 19) = 12 :=
  max_bytes_per_line_floor 9 (by decide)

/-! ## Protocol encoder state machine
(`DymoLabelerFunctions`, src/dymoprint/lib/dymo_labeler.py).

Mutating methods are modelled as functions from state to state; a method
that can raise returns the state at the moment of the raise together with
the exception, so an error result `(st, some e)` shows exactly which
mutations had already happened. -/

/-- The encoder fields set by `DymoLabelerFunctions.__init__`:
the pending command buffer, the response flag, and the cached
bytes-per-line / dot-tab values. -/
structure EncoderState where
  cmd : List Int
  response : Bool
  bytesPerLine : Option Int
  dotTab : Int
  deriving DecidableEq, Repr

/-- `__init__`: empty buffer, no response expected, `_bytesPerLine = None`,
`_dotTab = 0`. -/
def initEncoderState : EncoderState := ⟨[], false, none, 0⟩

/-- `_build_command`: append the instruction to the pending buffer. -/
def buildCommand (st : EncoderState) (c : List Int) : EncoderState :=
  { st with cmd := st.cmd ++ c }

/-- `_status_request`: queue `ESC 'A'` and expect a response. -/
def statusRequest (st : EncoderState) : EncoderState :=
  { buildCommand st [ESC, 65] with response := true }

/-- `_dot_tab`: validate `0 ≤ value ≤ max_bytes_per_line`, then queue
`ESC 'B' value`, record the dot tab and invalidate the cached
bytes-per-line. -/
def dotTab (tapeSizeMm : Option Nat) (st : EncoderState) (value : Int) :
    EncoderState × Option PyErr :=
  if value < 0 ∨ value > (maxBytesPerLine tapeSizeMm : Int) then
    (st, some .valueError)
  else
    ({ buildCommand st [ESC, 66, value] with
        dotTab := value, bytesPerLine := none }, none)

/-- `_tape_color`: validate `0 ≤ value`, then queue `ESC 'C' value`. -/
def tapeColor (st : EncoderState) (value : Int) :
    EncoderState × Option PyErr :=
  if value < 0 then (st, some .valueError)
  else (buildCommand st [ESC, 67, value], none)

/-- `_bytes_per_line`: queue `ESC 'D' value` unless the value is already
current (redundant repeats are suppressed). -/
def bytesPerLineCmd (st : EncoderState) (value : Int) : EncoderState :=
  if st.bytesPerLine = some value then st
  else { buildCommand st [ESC, 68, value] with bytesPerLine := some value }

/-- `_line`: re-issue bytes-per-line for this line's length if needed, then
queue `SYN` followed by the row bytes. -/
def lineCmd (st : EncoderState) (value : List Int) : EncoderState :=
  buildCommand (bytesPerLineCmd st (value.length : Int)) (SYN :: value)

/-- `_skip_lines`: validate `value > 0`, then issue bytes-per-line 0 and
`value` SYN bytes. -/
def skipLines (st : EncoderState) (value : Int) :
    EncoderState × Option PyErr :=
  if value ≤ 0 then (st, some .valueError)
  else (buildCommand (bytesPerLineCmd st 0) (List.replicate value.toNat SYN),
    none)

/-- `_raw_print_label` followed by `_get_status`'s `_status_request`: the
encoder state whose buffer `_send_command` then transmits for one
sub-print.  (`_raw_print_label` queues a status request and then calls
`_get_status`, which queues a second one before sending.) -/
def rawPrintLabel (lines : List (List Int)) : EncoderState :=
  statusRequest (statusRequest
    (lines.foldl lineCmd (tapeColor initEncoderState 0).1))

/-- The byte stream one sub-print hands to `_send_command`. -/
def rawPrintStream (lines : List (List Int)) : List Int :=
  (rawPrintLabel lines).cmd

/-- C10: each validating mid-level function is atomic on failure: a bad
argument yields `ValueError` with the encoder state (pending buffer,
bytes-per-line, dot-tab) exactly as it was before the call. -/
theorem mlf_validation_atomic (tapeSizeMm : Option Nat)
    (st : EncoderState) (v : Int) :
    (v < 0 ∨ (maxBytesPerLine tapeSizeMm : Int) < v →
      dotTab tapeSizeMm st v = (st, some .valueError)) ∧
    (v < 0 → tapeColor st v = (st, some .valueError)) ∧
    (v ≤ 0 → skipLines st v = (st, some .valueError)) := by
  refine ⟨?_, ?_, ?_⟩
  · intro hv
    rw [dotTab, if_pos]
    rcases hv with hv | hv
    · exact Or.inl hv
    · exact Or.inr hv
  · intro hv
    rw [tapeColor, if_pos hv]
  · intro hv
    rw [skipLines, if_pos hv]

/-- Witness for `mlf_validation_atomic`: a negative argument fails all three
validators and leaves a sample state untouched. -/
theorem mlf_validation_atomic_witness :
    ((-1 : Int) < 0 ∨ (maxBytesPerLine (some 12) : Int) < -1 →
      dotTab (some 12) ⟨[SYN], true, some 8, 2⟩ (-1) =
        (⟨[SYN], true, some 8, 2⟩, some .valueError)) ∧
    ((-1 : Int) < 0 → tapeColor ⟨[SYN], true, some 8, 2⟩ (-1) =
      (⟨[SYN], true, some 8, 2⟩, some .valueError)) ∧
    ((-1 : Int) ≤ 0 → skipLines ⟨[SYN], true, some 8, 2⟩ (-1) =
      (⟨[SYN], true, some 8, 2⟩, some .valueError)) :=
  mlf_validation_atomic (some 12) ⟨[SYN], true, some 8, 2⟩ (-1)

/-- The opcode stream C1 claims for one sub-print, modelled from the spec's
words: Tape-color(0), Bytes-per-line(D) once, one Line per row,
Skip-lines(margin*2) if margin > 0, then a single Status-request. -/
def claimedSubPrintStream (bytesPerLineVal : Int) (margin : Nat)
    (rows : List (List Int)) : List Int :=
  [ESC, 67, 0] ++ [ESC, 68, bytesPerLineVal] ++
    (rows.map (fun r => SYN :: r)).flatten ++
    (if margin > 0 then List.replicate (margin * 2) SYN else []) ++
    [ESC, 65]

set_option maxRecDepth 4096 in
/-- C1 counterexample: for the all-zero 8×64 raster (64 rows of one zero
byte) and margin 0, the stream the encoder actually builds is not the
claimed opcode sequence — the code queues two Status-requests, not one. -/
theorem raw_print_stream_ne_claimed :
    rawPrintStream (List.replicate 64 [0]) ≠
      claimedSubPrintStream 1 0 (List.replicate 64 [0]) := by
  decide

lemma foldl_lineCmd_const (D : Nat) (rows : List (List Int)) :
    ∀ st : EncoderState, st.bytesPerLine = some (D : Int) →
      (∀ r ∈ rows, r.length = D) →
      rows.foldl lineCmd st =
        { st with cmd := st.cmd ++ (rows.map (fun r => SYN :: r)).flatten } := by
  induction rows with
  | nil => intro st _ _; simp
  | cons r rest ih =>
    intro st hbpl hD
    have hr : r.length = D := hD r (by simp)
    have hstep : lineCmd st r = { st with cmd := st.cmd ++ (SYN :: r) } := by
      rw [lineCmd, bytesPerLineCmd, if_pos (by rw [hbpl, hr])]
      rfl
    rw [List.foldl_cons, hstep,
      ih _ (by simp [hbpl]) (fun r' hr' => hD r' (by simp [hr']))]
    simp

/-- C1 amended: for a non-empty raster whose rows all have width `D`, the
stream built for one sub-print is Tape-color(0), Bytes-per-line(D) once,
one Line opcode per row, then two Status-requests; the modern encoder takes
no margin and never emits Skip-lines. -/
theorem raw_print_stream_eq (rows : List (List Int)) (D : Nat)
    (hne : rows ≠ []) (hD : ∀ r ∈ rows, r.length = D) :
    rawPrintStream rows =
      [ESC, 67, 0] ++ [ESC, 68, (D : Int)] ++
        (rows.map (fun r => SYN :: r)).flatten ++ [ESC, 65] ++ [ESC, 65] := by
  cases rows with
  | nil => exact absurd rfl hne
  | cons r0 rest =>
    have h0 : r0.length = D := hD r0 (by simp)
    have hst1 : (tapeColor initEncoderState 0).1 =
        ⟨[ESC, 67, 0], false, none, 0⟩ := rfl
    have hline0 : lineCmd ⟨[ESC, 67, 0], false, none, 0⟩ r0 =
        ⟨[ESC, 67, 0, ESC, 68, (D : Int)] ++ (SYN :: r0), false,
          some (D : Int), 0⟩ := by
      rw [lineCmd, bytesPerLineCmd, if_neg (by simp)]
      simp [buildCommand, h0]
    have hfold := foldl_lineCmd_const D rest
      ⟨[ESC, 67, 0, ESC, 68, (D : Int)] ++ (SYN :: r0), false,
        some (D : Int), 0⟩
      rfl (fun r' hr' => hD r' (by simp [hr']))
    rw [rawPrintStream, rawPrintLabel, hst1, List.foldl_cons, hline0, hfold]
    simp [statusRequest, buildCommand]

/-- Witness for `raw_print_stream_eq` on the all-zero 8×64 raster. -/
theorem raw_print_stream_eq_witness :
    rawPrintStream (List.replicate 64 [0]) =
      [ESC, 67, 0] ++ [ESC, 68, (1 : Int)] ++
        ((List.replicate 64 [0]).map (fun r => SYN :: r)).flatten ++
        [ESC, 65] ++ [ESC, 65] :=
  raw_print_stream_eq (List.replicate 64 [0]) 1 (by simp)
    (by intro r hr; rw [List.eq_of_mem_replicate hr]; rfl)

/-! ## Transport / chunker
(`DymoLabelerFunctions._send_command`, src/dymoprint/lib/dymo_labeler.py;
identically in the legacy `DymoLabeler.sendCommand`,
src/dymoprint/labeler.py). -/

/-- One USB I/O event of the send loop: a write to the OUT endpoint or a
blocking read of `n` bytes from the IN endpoint. -/
inductive UsbEvent where
  | write (bytes : List Int)
  | read (n : Nat)
  deriving DecidableEq, Repr

/-- `list.index(SYN)`: the first index holding SYN, or `none` for the
`ValueError` case. -/
def findSynIn : List Int → Option Nat
  | [] => none
  | b :: rest => if b = SYN then some 0 else (findSynIn rest).map (· + 1)

/-- `self._cmd[start:].index(SYN) + start`: the index of the first SYN byte
at position `start` or later. -/
def findSynFrom (cmd : List Int) (start : Nat) : Option Nat :=
  (findSynIn (cmd.drop start)).map (· + start)

/-- The inner `while synCount < self._synwait` loop: starting from
`pos = -1`, repeatedly advance `pos` to the next SYN index; if none is left,
`pos = len(cmd)`.  Returns the final `pos`. -/
def chunkScan (cmd : List Int) : Nat → Int → Int
  | 0, pos => pos
  | budget + 1, pos =>
    match findSynFrom cmd (pos + 1).toNat with
    | some i => chunkScan cmd budget i
    | none => (cmd.length : Int)

/-- Python's `cmd[:p]` for a possibly negative `p`. -/
def pySliceTo (cmd : List Int) (p : Int) : List Int :=
  if 0 ≤ p then cmd.take p.toNat else cmd.take (cmd.length - (-p).toNat)

/-- Python's `cmd[p:]` for a possibly negative `p`. -/
def pySliceFrom (cmd : List Int) (p : Int) : List Int :=
  if 0 ≤ p then cmd.drop p.toNat else cmd.drop (cmd.length - (-p).toNat)

/-- The outer `while len(self._cmd) > 0` loop of `_send_command` with
`synwait` set: each iteration performs a status round-trip (write
`ESC 'A'`, read 8 bytes) and then writes the chunk up to the `synwait`-th
SYN.  Fuelled because an empty chunk would loop forever; `none` means the
fuel ran out. -/
def sendLoop (synwait : Nat) : Nat → List Int → List UsbEvent →
    Option (List UsbEvent)
  | 0, _, _ => none
  | fuel + 1, cmd, acc =>
    if cmd.isEmpty then some acc
    else
      let pos := chunkScan cmd synwait (-1)
      let cmdToSend := pySliceTo cmd pos
      let cmdRest := pySliceFrom cmd pos
      sendLoop synwait fuel cmdRest
        (acc ++ [.write [ESC, 65], .read 8, .write cmdToSend])

/-- `_send_command`: nothing happens on an empty buffer; with `synwait`
unset the whole buffer goes out in one write; with `synwait` set the
chunked loop runs; finally, if a response is expected, one more 8-byte read
happens. -/
def sendCommand (synwait : Option Nat) (cmd : List Int) (response : Bool) :
    Option (List UsbEvent) :=
  if cmd.length = 0 then some []
  else
    let events? :=
      match synwait with
      | none => some [UsbEvent.write cmd]
      | some sw => sendLoop sw (cmd.length + 1) cmd []
    events?.map (fun evs => evs ++ if response then [UsbEvent.read 8] else [])

lemma findSynIn_some_count (l : List Int) :
    ∀ j, findSynIn l = some j →
      (l.drop (j + 1)).count SYN + 1 = l.count SYN := by
  induction l with
  | nil => intro j h; simp [findSynIn] at h
  | cons b rest ih =>
    intro j h
    rw [findSynIn] at h
    by_cases hb : b = SYN
    · rw [if_pos hb] at h
      cases h
      simp [hb, List.count_cons]
    · rw [if_neg hb] at h
      rcases Option.map_eq_some'.mp h with ⟨k, hk, hk1⟩
      subst hk1
      have := ih k hk
      simp only [List.drop_succ_cons, List.count_cons]
      rw [this]
      simp [hb]

lemma chunkScan_all_sent (cmd : List Int) :
    ∀ (budget : Nat) (pos : Int),
      (cmd.drop (pos + 1).toNat).count SYN < budget →
      chunkScan cmd budget pos = (cmd.length : Int) := by
  intro budget
  induction budget with
  | zero => intro pos h; omega
  | succ b ih =>
    intro pos h
    rw [chunkScan]
    cases hf : findSynFrom cmd (pos + 1).toNat with
    | none => rfl
    | some i =>
      rcases Option.map_eq_some'.mp hf with ⟨j, hj, hji⟩
      have hcount := findSynIn_some_count _ j hj
      rw [List.drop_drop] at hcount
      apply ih
      have heq : ((i : Int) + 1).toNat = j + 1 + (pos + 1).toNat := by omega
      have heq' : ((i : Int) + 1).toNat = (pos + 1).toNat + (j + 1) := by omega
      first
        | (rw [heq]; omega)
        | (rw [heq']; omega)

/-- C4 counterexample: an empty command buffer contains fewer than 64 SYN
bytes, yet `_send_command` performs no I/O at all — no status round-trip
and no bulk write. -/
theorem send_command_empty_buffer :
    sendCommand (some 64) [] false = some [] ∧
    sendCommand (some 64) [] false ≠
      some [UsbEvent.write [ESC, 65], UsbEvent.read 8, UsbEvent.write []] := by
  constructor
  · rfl
  · decide

/-- C4 amended: for every NON-empty command buffer with fewer than `synwait`
SYN bytes, the send loop performs exactly one status round-trip (one
`ESC 'A'` write, one 8-byte read) followed by exactly one bulk write of the
entire buffer (plus the final response read when one is expected). -/
theorem send_command_single_chunk (sw : Nat) (cmd : List Int) (resp : Bool)
    (hne : cmd ≠ []) (hcount : cmd.count SYN < sw) :
    sendCommand (some sw) cmd resp =
      some ([UsbEvent.write [ESC, 65], UsbEvent.read 8, UsbEvent.write cmd]
        ++ if resp then [UsbEvent.read 8] else []) := by
  have hpos : chunkScan cmd sw (-1) = (cmd.length : Int) := by
    apply chunkScan_all_sent
    simpa using hcount
  cases cmd with
  | nil => exact absurd rfl hne
  | cons b rest =>
    have hto : pySliceTo (b :: rest) ((b :: rest).length : Int) = b :: rest := by
      rw [pySliceTo, if_pos (Int.natCast_nonneg _)]
      simp
    have hfrom : pySliceFrom (b :: rest) ((b :: rest).length : Int) = [] := by
      rw [pySliceFrom, if_pos (Int.natCast_nonneg _)]
      simp
    have hloop : sendLoop sw ((b :: rest).length + 1) (b :: rest) [] =
        some [UsbEvent.write [ESC, 65], UsbEvent.read 8,
          UsbEvent.write (b :: rest)] := by
      rw [sendLoop, if_neg (by simp)]
      simp only [hpos, hto, hfrom]
      rw [show (b :: rest).length = rest.length + 1 from rfl, sendLoop,
        if_pos (by simp)]
      simp
    rw [sendCommand, if_neg (by simp)]
    simp only [hloop, Option.map_some']

/-- Witness for `send_command_single_chunk`: a 5-byte buffer holding two SYN
bytes, `synwait = 64`, with a response expected. -/
theorem send_command_single_chunk_witness :
    sendCommand (some 64) [ESC, 65, SYN, 0, SYN] true =
      some ([UsbEvent.write [ESC, 65], UsbEvent.read 8,
        UsbEvent.write [ESC, 65, SYN, 0, SYN]]
        ++ if true then [UsbEvent.read 8] else []) :=
  send_command_single_chunk 64 [ESC, 65, SYN, 0, SYN] true (by simp)
    (by decide)

/-! ## Job splitting
(`DymoLabelerFunctions.print_label`, src/dymoprint/lib/dymo_labeler.py;
the margin handling is that of the legacy `DymoLabeler.printLabel`,
src/dymoprint/labeler.py — both use the same `> maxLines + 1` loop). -/

/-- `self.maxLines = 200`. -/
def maxLinesCap : Nat := 200

/-- `printLabel(lines, margin)`: the sequence of `rawPrintLabel` calls
(chunk, margin) the loop makes.  While more than `maxLines + 1` lines
remain, print the first `maxLines` with margin 0; the final call gets the
caller's margin. -/
def printLabelCalls {α : Type} (margin : Nat) (lines : List α) :
    List (List α × Nat) :=
  if lines.length > maxLinesCap + 1 then
    (lines.take maxLinesCap, 0) ::
      printLabelCalls margin (lines.drop maxLinesCap)
  else [(lines, margin)]
termination_by lines.length
decreasing_by
  simp only [List.length_drop]
  simp [maxLinesCap] at *
  omega

/-- C5 counterexample: a job of 201 raster lines (201 > 200) is sent as a
single sub-print of all 201 lines — the loop only splits past
`maxLines + 1 = 201`, so no sub-print of at most 200 lines happens. -/
theorem print_label_201_single_call :
    printLabelCalls 3 (List.replicate 201 (0 : Int)) =
      [(List.replicate 201 (0 : Int), 3)] ∧
    200 < (List.replicate 201 (0 : Int)).length := by
  constructor
  · rw [printLabelCalls,
      if_neg (by simp only [List.length_replicate, maxLinesCap]; omega)]
  · simp only [List.length_replicate]
    omega

/-- C5 amended: the job splits only when it exceeds `maxLines + 1 = 201`
lines; every sub-print before the last carries exactly 200 lines and margin
0, the last carries the caller's margin and at most 201 lines, the
concatenation of the chunks is the original job, and a job of at most 201
lines goes out as one sub-print. -/
theorem print_label_split {α : Type} (margin : Nat) (lines : List α) :
    ∃ (pre : List (List α)) (lastChunk : List α),
      printLabelCalls margin lines =
        pre.map (fun c => (c, 0)) ++ [(lastChunk, margin)] ∧
      (∀ c ∈ pre, c.length = maxLinesCap) ∧
      lastChunk.length ≤ maxLinesCap + 1 ∧
      pre.flatten ++ lastChunk = lines ∧
      (lines.length ≤ maxLinesCap + 1 → pre = [] ∧ lastChunk = lines) := by
  suffices H : ∀ (n : Nat) (lines : List α), lines.length ≤ n →
      ∃ (pre : List (List α)) (lastChunk : List α),
        printLabelCalls margin lines =
          pre.map (fun c => (c, 0)) ++ [(lastChunk, margin)] ∧
        (∀ c ∈ pre, c.length = maxLinesCap) ∧
        lastChunk.length ≤ maxLinesCap + 1 ∧
        pre.flatten ++ lastChunk = lines ∧
        (lines.length ≤ maxLinesCap + 1 → pre = [] ∧ lastChunk = lines) by
    exact H lines.length lines le_rfl
  intro n
  induction n with
  | zero =>
    intro lines hlen
    refine ⟨[], lines, ?_, by simp, by omega, by simp, fun _ => ⟨rfl, rfl⟩⟩
    rw [printLabelCalls, if_neg (by omega)]
    simp
  | succ n ih =>
    intro lines hlen
    by_cases hgt : lines.length > maxLinesCap + 1
    · have hdrop : (lines.drop maxLinesCap).length ≤ n := by
        simp only [List.length_drop]
        simp [maxLinesCap] at hgt ⊢
        omega
      obtain ⟨pre, lastChunk, h1, h2, h3, h4, h5⟩ :=
        ih (lines.drop maxLinesCap) hdrop
      refine ⟨lines.take maxLinesCap :: pre, lastChunk, ?_, ?_, h3, ?_,
        fun hc => absurd hc (by omega)⟩
      · rw [printLabelCalls, if_pos hgt, h1]
        simp
      · intro c hc
        rcases List.mem_cons.mp hc with hc | hc
        · subst hc
          simp only [List.length_take]
          omega
        · exact h2 c hc
      · simp only [List.flatten_cons, List.append_assoc, h4]
        exact List.take_append_drop _ _
    · refine ⟨[], lines, ?_, by simp, by omega, by simp,
        fun _ => ⟨rfl, rfl⟩⟩
      rw [printLabelCalls, if_neg hgt]
      simp

/-! ## Raster consistency check of the print entry point
(`DymoLabeler.print`, src/dymoprint/lib/dymo_labeler.py, lines 299–315;
identically in `print_label`, src/dymoprint/lib/labeler_device.py). -/

/-- `int(math.ceil(bitmap.height / 8))`: the byte width of one row of the
rotated raster stream. -/
def streamRowLength (heightPx : Nat) : Nat := (heightPx + 7) / 8

/-- The slicing `[stream[i:i+L] for i in range(0, len(stream), L)]`,
expressed with fuel (`s.length` steps suffice, since each slice consumes at
least one byte when `L ≥ 1`). -/
def chunkRowsAux : Nat → List Int → Nat → List (List Int)
  | 0, _, _ => []
  | fuel + 1, s, rowLen =>
    if s = [] then []
    else s.take rowLen :: chunkRowsAux fuel (s.drop rowLen) rowLen

/-- `label_rows`: regather the raster byte stream into rows of
`stream_row_length` bytes. -/
def chunkRows (s : List Int) (rowLen : Nat) : List (List Int) :=
  if rowLen = 0 then [] else chunkRowsAux s.length s rowLen

/-- The consistency check and framing of `DymoLabeler.print`:
`RuntimeError` when `len(stream) // stream_row_length != bitmap.width`,
otherwise the framed rows handed on to `print_label`. -/
def printConsistency (stream : List Int) (heightPx widthPx : Nat) :
    Except PyErr (List (List Int)) :=
  if stream.length / streamRowLength heightPx ≠ widthPx then
    .error .runtimeError
  else .ok (chunkRows stream (streamRowLength heightPx))

/-- C3 counterexample: a 7-byte stream with height 16 (row byte-width 2) and
width 3 has `row_byte_width * width = 6 ≠ 7 = total_bytes`, yet the code's
floor-division guard `7 // 2 == 3` passes and no internal-consistency error
is raised. -/
theorem raster_check_floor_counterexample :
    printConsistency (List.replicate 7 0) 16 3 ≠ .error .runtimeError ∧
    streamRowLength 16 * 3 ≠ (List.replicate (7 : Nat) (0 : Int)).length := by
  constructor
  · rw [printConsistency, if_neg (by simp [streamRowLength])]
    simp
  · simp [streamRowLength]

lemma chunkRowsAux_exact (rowLen : Nat) (hL : 0 < rowLen) (w : Nat) :
    ∀ (fuel : Nat) (s : List Int), s.length = rowLen * w →
      s.length ≤ fuel →
      (chunkRowsAux fuel s rowLen).length = w ∧
      (∀ r ∈ chunkRowsAux fuel s rowLen, r.length = rowLen) ∧
      (chunkRowsAux fuel s rowLen).flatten = s := by
  induction w with
  | zero =>
    intro fuel s hlen _
    have hs : s = [] := List.eq_nil_of_length_eq_zero (by omega)
    subst hs
    cases fuel with
    | zero => exact ⟨rfl, by simp [chunkRowsAux], rfl⟩
    | succ f => exact ⟨by simp [chunkRowsAux], by simp [chunkRowsAux],
        by simp [chunkRowsAux]⟩
  | succ w ih =>
    intro fuel s hlen hfuel
    have hs : s ≠ [] := by
      intro hs
      subst hs
      simp at hlen
      omega
    have hlenpos : 0 < s.length := List.length_pos.mpr hs
    cases fuel with
    | zero => omega
    | succ f =>
      have hdroplen : (s.drop rowLen).length = rowLen * w := by
        simp only [List.length_drop]
        have : rowLen * (w + 1) = rowLen * w + rowLen := by ring
        omega
      have hdropfuel : (s.drop rowLen).length ≤ f := by
        simp only [List.length_drop]
        omega
      obtain ⟨ih1, ih2, ih3⟩ := ih f (s.drop rowLen) hdroplen hdropfuel
      rw [chunkRowsAux, if_neg hs]
      refine ⟨by simp [ih1], ?_, ?_⟩
      · intro r hr
        rcases List.mem_cons.mp hr with hr | hr
        · subst hr
          simp only [List.length_take]
          have : rowLen * (w + 1) = rowLen * w + rowLen := by ring
          omega
        · exact ih2 r hr
      · simp only [List.flatten_cons, ih3]
        exact List.take_append_drop _ _

/-- C3 amended: for a positive raster height, the print entry point raises
the internal-consistency `RuntimeError` iff
`total_bytes // row_byte_width != width` (floor division — a stream whose
length is not a multiple of the row byte-width but floors to the width
passes the guard); when `row_byte_width * width == total_bytes` the check
passes and the stream is framed into `width` rows of `row_byte_width`
bytes each. -/
theorem raster_check_amended (stream : List Int) (heightPx widthPx : Nat)
    (hh : 0 < heightPx) :
    (printConsistency stream heightPx widthPx = .error .runtimeError ↔
      stream.length / streamRowLength heightPx ≠ widthPx) ∧
    (streamRowLength heightPx * widthPx = stream.length →
      ∃ rows, printConsistency stream heightPx widthPx = .ok rows ∧
        rows.length = widthPx ∧
        (∀ r ∈ rows, r.length = streamRowLength heightPx) ∧
        rows.flatten = stream) := by
  have hL : 0 < streamRowLength heightPx := by
    rw [streamRowLength]
    omega
  constructor
  · constructor
    · intro herr
      by_contra hdiv
      rw [printConsistency, if_neg (not_not_intro hdiv)] at herr
      exact Except.noConfusion herr
    · intro hdiv
      rw [printConsistency, if_pos hdiv]
  · intro hexact
    have hdiv : stream.length / streamRowLength heightPx = widthPx := by
      rw [← hexact]
      exact Nat.mul_div_cancel_left _ hL
    obtain ⟨h1, h2, h3⟩ := chunkRowsAux_exact (streamRowLength heightPx) hL
      widthPx stream.length stream (by omega) le_rfl
    refine ⟨chunkRows stream (streamRowLength heightPx), ?_, ?_, ?_, ?_⟩
    · rw [printConsistency, if_neg (not_not_intro hdiv)]
    · rw [chunkRows, if_neg (by omega)]
      exact h1
    · rw [chunkRows, if_neg (by omega)]
      exact h2
    · rw [chunkRows, if_neg (by omega)]
      exact h3

/-- Witness for `raster_check_amended`: a 6-byte stream, height 16
(row byte-width 2), width 3. -/
theorem raster_check_amended_witness :
    (printConsistency (List.replicate 6 0) 16 3 = .error .runtimeError ↔
      (List.replicate (6 : Nat) (0 : Int)).length / streamRowLength 16 ≠ 3) ∧
    (streamRowLength 16 * 3 = (List.replicate (6 : Nat) (0 : Int)).length →
      ∃ rows, printConsistency (List.replicate 6 0) 16 3 = .ok rows ∧
        rows.length = 3 ∧
        (∀ r ∈ rows, r.length = streamRowLength 16) ∧
        rows.flatten = List.replicate 6 0) :=
  raster_check_amended (List.replicate 6 0) 16 3 (by decide)

end Dymoprint
